import Mathlib

/-!
Shallow embedding of the layout, navigation, selection and rendering core of
`src/peek.c`, together with proofs settling the specification claims about it.

Conventions:
* C `int` values that can go negative (`selected`, `uni_bytes`, widths built
  from `mk_wcwidth` which may return -1) are modelled as `Int`; C `%` on
  `int` truncates toward zero, so it is modelled with `Int.tmod` (for the
  non-negative operands arising here it agrees with `Int.emod`).
* C `size_t`/array lengths are `Nat`.
* Entry arrays are Lean lists; `entry_data[i]` becomes `List.get? i`.
-/

namespace Peek

/-- One entry's metric data, mirroring `struct peek_entry` in `src/peek.c`
(lines 153-159).  Only the fields that enter width computations are kept:
`len` (printed UTF-8 width, an `int` in C since `mk_wcwidth` can return -1)
and whether an indicator character will be appended (`indicator != 0`).
The `color` pointer and the cached cursor offsets do not affect any width. -/
structure PeekEntry where
  len : Int
  indicator : Bool
  deriving Repr, DecidableEq

/-- The decorated width of an entry: `len = entry_data[i].len;
if (entry_data[i].indicator) ++len;` (peek.c lines 529-530). -/
def declen (e : PeekEntry) : Int :=
  e.len + (if e.indicator then 1 else 0)

/-- Constant `ENTRY_DELIM_LEN` (peek.c line 114). -/
def ENTRY_DELIM_LEN : Int := 2

/-- The inner loop of `valid_column_count` (peek.c lines 524-532): the longest
decorated entry in column `col` of a column-major grid with `cols` columns and
`lines` lines.  The C loop breaks at the first `i >= entry_count`; since
`i = line*cols + col` grows with `line`, folding over all lines with `get?`
yields the same maximum. -/
def longest_in_col (entries : List PeekEntry) (cols lines col : Nat) : Int :=
  (List.range lines).foldl
    (fun longest line =>
      match entries.get? (line * cols + col) with
      | some e => max longest (declen e)
      | none => longest)
    0

/-- The column loop of `valid_column_count` (peek.c lines 521-538), written
with explicit fuel (the number of columns still to scan) so that it is
structurally recursive.  `col` is the next column, `width` the running total.
The C function returns `false` as soon as the running width reaches
`termsize.ws_col` (parameter `W`). -/
def vcc_loop (W : Nat) (entries : List PeekEntry) (cols lines : Nat) :
    Nat → Nat → Int → Bool
  | 0, _, _ => true
  | fuel + 1, col, width =>
    let longest := longest_in_col entries cols lines col
    let longest := if col < cols - 1 then longest + ENTRY_DELIM_LEN else longest
    let width := width + longest
    if width ≥ (W : Int) then false
    else vcc_loop W entries cols lines fuel (col + 1) width

/-- Function `valid_column_count` (peek.c lines 513-541), the feasibility predicate
`fits(cols)`: whether `entries` laid out column-major in `cols` columns fit in
a terminal `W` cells wide.  `lines = (entry_count - 1) / cols + 1` as in the C
(for `entry_count = 0` C computes `(-1)/cols + 1 = 1`, and truncated `Nat`
subtraction gives the same `1`). -/
def valid_column_count (W : Nat) (entries : List PeekEntry) (cols : Nat) : Bool :=
  let lines := (entries.length - 1) / cols + 1
  vcc_loop W entries cols lines cols 0 0

/-- The `while (lo < hi)` binary-search loop of `renew_display`
(peek.c lines 588-595), with fuel; each iteration strictly decreases
`hi - lo`, so any `fuel ≥ hi - lo` reproduces the C loop exactly. -/
def bs_loop (valid : Nat → Bool) : Nat → Nat → Nat → Nat
  | 0, lo, _ => lo
  | fuel + 1, lo, hi =>
    if lo < hi then
      let m := lo + (hi - lo) / 2
      if valid m then bs_loop valid fuel (m + 1) hi
      else bs_loop valid fuel lo m
    else lo

/-- The column count chosen by `renew_display` (peek.c lines 586-598) when the
listing is formatted: rightmost binary search over `[1, entry_count-1]`, then
`entry_columns = (lo <= 1) ? 1 : lo - 1`.  Initial fuel `entry_count - 1`
dominates the initial `hi - lo = entry_count - 2`. -/
def entry_columns_of (W : Nat) (entries : List PeekEntry) : Nat :=
  let n := entries.length
  let lo := bs_loop (valid_column_count W entries) (n - 1) 1 (n - 1)
  if lo ≤ 1 then 1 else lo - 1

/-- Running `total_length` as accumulated by `run_scan` (peek.c lines 393-395):
per entry its printed length, plus one for an indicator, plus the
delimiter length. -/
def total_length (entries : List PeekEntry) : Int :=
  entries.foldl
    (fun acc e =>
      acc + e.len + (if e.indicator then 1 else 0) + ENTRY_DELIM_LEN)
    0

/-- The `formatted` flag after a scan followed by `renew_display`:, `run_scan`
sets `formatted = 1` (peek.c line 382) and `renew_display` clears it exactly
when `total_length < termsize.ws_col` (peek.c lines 582-584). -/
def formatted_after_renew (W : Nat) (entries : List PeekEntry) : Bool :=
  if total_length entries < (W : Int) then false else true

/-- The undecorated total length in the words of the spec sentence behind C3
("the undecorated total length of all entries (with delimiters)"): printed
length plus delimiter, with no indicator contribution.  Used only to compare
the spec's wording against `total_length`, which the code actually tests. -/
def undecorated_total_length_spec (entries : List PeekEntry) : Int :=
  entries.foldl (fun acc e => acc + e.len + ENTRY_DELIM_LEN) 0

/-- The visible character stream `write_entry` produces for one entry in
unformatted mode (peek.c lines 474-505): the name bytes with ASCII control
characters dropped (`*c >= 32 && *c != 0x7F`), then the indicator byte when
present, then `ENTRY_DELIM`; no padding happens when `formatted` is false.
ANSI color/reset escapes occupy no display cells and are omitted. -/
def write_entry_unformatted (name : List Nat) (indicator : Option Nat) : List Nat :=
  name.filter (fun c => 32 ≤ c ∧ c ≠ 127)
    ++ (match indicator with | some i => [i] | none => [])
    ++ [32, 32]

/-- The single line printed by the `renew_display` entry loop (peek.c lines
617-646) when `formatted` is false: every entry in order with no line breaks
and no padding, as its visible character stream. -/
def render_one_line (entries : List (List Nat × Option Nat)) : List Nat :=
  entries.foldl (fun acc e => acc ++ write_entry_unformatted e.1 e.2) []

/-! ### Grid navigation (`handle_user_act`, peek.c lines 822-915)

Each move updates only `selected`; it is modelled as a function of the layout
scalars `n = entry_count`, `cols = entry_columns`, `lines = entry_lines`, the
`formatted` flag and the current `selected`.  All are C `int`s, so `Int` here;
`SELECTED_MIN = 0`, `SELECTED_MAX = n - 1` (peek.c lines 191-193). -/

/-- Case `USER_ACT_MV_UP` of `handle_user_act` (peek.c lines 828-839). -/
def move_up (n cols lines : Int) (fmt : Bool) (s : Int) : Int :=
  if !fmt then s
  else if s - cols < 0 then
    let offset := cols * (lines - 1)
    let offset := if s + offset > n - 1 then offset - cols else offset
    s + offset
  else s - cols

/-- Case `USER_ACT_MV_DOWN` of `handle_user_act` (peek.c lines 840-851). -/
def move_down (n cols lines : Int) (fmt : Bool) (s : Int) : Int :=
  if !fmt then s
  else if s + cols > n - 1 then
    let offset := cols * (lines - 1)
    let offset := if s - offset < 0 then offset - cols else offset
    s - offset
  else s + cols

/-- Case `USER_ACT_MV_LEFT` of `handle_user_act` (peek.c lines 852-868).  C `%` truncates toward zero,
hence `Int.tmod`. -/
def move_left (n cols : Int) (fmt : Bool) (s : Int) : Int :=
  if fmt then
    if Int.tmod s cols = 0 then s + (cols - 1) else s - 1
  else
    if s - 1 < 0 then n - 1 else s - 1

/-- Case `USER_ACT_MV_RIGHT` of `handle_user_act` (peek.c lines 869-887). -/
def move_right (n cols : Int) (fmt : Bool) (s : Int) : Int :=
  if fmt then
    if s + 1 > n - 1 then s - Int.tmod s cols
    else if Int.tmod s cols = cols - 1 then s - (cols - 1)
    else s + 1
  else
    if s + 1 > n - 1 then 0 else s + 1

/-! ### Selection validation and the view window
(`validate_selection_index`, `renew_display`, `refresh_display`) -/

/-- The mutable scalars that `validate_selection_index` and the window
recomputation of `renew_display` read and write (peek.c lines 172-195):
`entry_count` is a C `int` and is negative after a failed scan. -/
structure DispState where
  entry_count : Int
  selected : Int
  selected_previously : Int
  i_offset : Int
  i_limit : Int
  display_is_dirty : Bool
  deriving Repr, DecidableEq

/-- Function `validate_selection_index` (peek.c lines 459-472): clamp `selected` into
`[SELECTED_MIN, SELECTED_MAX]` (or to 0 when no entries), reset a stale
`selected_previously`, and mark the display dirty when the (clamped)
selection left the window `[i_offset, i_limit]`. -/
def validate_selection_index (st : DispState) : DispState :=
  let s :=
    if st.entry_count < 1 then 0
    else if st.selected < 0 then 0
    else if st.selected > st.entry_count - 1 then st.entry_count - 1
    else st.selected
  let prev :=
    if st.selected_previously > st.entry_count - 1 then -1
    else st.selected_previously
  let dirty :=
    st.display_is_dirty || decide (s < st.i_offset) || decide (s > st.i_limit)
  { st with selected := s, selected_previously := prev, display_is_dirty := dirty }

/-- The window recomputation in `renew_display` (peek.c lines 607-615):
when interactive, formatted, and the grid is taller than the terminal, page
the listing by `page_length = (ws_row - entry_row_offset) * entry_columns`
(C `int` division truncates toward zero, hence `Int.tdiv`); otherwise show
everything.  Rendering output itself is modelled separately. -/
def renew_window (oneshot fmt : Bool) (entry_lines ws_row row_offset cols : Int)
    (st : DispState) : DispState :=
  if !oneshot && fmt && decide (entry_lines > ws_row) then
    let page_length := (ws_row - row_offset) * cols
    let off := Int.tdiv st.selected page_length * page_length
    { st with i_offset := off, i_limit := off + page_length - 1 }
  else
    { st with i_offset := 0, i_limit := st.entry_count - 1 }

/-- The state flow of `refresh_display` (peek.c lines 667-703): validate the
selection, then do a full repaint (which recomputes the window and clears the
dirty flag) when the frame is dirty or the terminal was resized; otherwise
leave the window as it is and only repatch the two affected cells. -/
def refresh_display (oneshot fmt : Bool) (entry_lines ws_row row_offset cols : Int)
    (resized : Bool) (st : DispState) : DispState :=
  let st := validate_selection_index st
  if st.display_is_dirty || resized then
    let st := renew_window oneshot fmt entry_lines ws_row row_offset cols st
    { st with display_is_dirty := false }
  else st

/-! ### Directory change and reload (`cd`, `free_posix_entries`,
`handle_user_act` reload case) -/

/-- The `enum prompt_t` of peek.c lines 161-167. -/
inductive PromptT where
  | PROMPT_NONE
  | PROMPT_ERR
  | PROMPT_MSG
  | PROMPT_CMD
  | PROMPT_SEARCH
  deriving Repr, DecidableEq

/-- The globals touched by `cd` and the reload action (peek.c lines 169-202).
`entries` models `posix_entries` (`none` = `NULL`), holding the entry names. -/
structure PeekState where
  current_dir : String
  current_dir_len : Nat
  entries : Option (List String)
  selected : Int
  selected_previously : Int
  display_is_dirty : Bool
  prompt : PromptT
  prompt_buffer : String
  deriving Repr, DecidableEq

/-- Function `free_posix_entries` (peek.c lines 420-427): drop the entry array and mark
the display dirty, but only when an array is present. -/
def free_posix_entries (st : PeekState) : PeekState :=
  match st.entries with
  | some _ => { st with entries := none, display_is_dirty := true }
  | none => st

/-- Outcome of the `chdir`/`getcwd` pair inside `cd`: either `chdir` fails
with a system error string (`strerror(errno)`), or it succeeds and
`sturdy_getcwd` reports the new working directory.  (A failed `getcwd` after
a successful `chdir` calls `exit(1)` — peek.c lines 438-441 — and never
returns to the state machine, so it has no successor state to model.) -/
inductive ChdirOutcome where
  | fail (err : String)
  | ok (cwd : String)
  deriving Repr, DecidableEq

/-- Function `cd` (peek.c lines 429-449): on `chdir` failure, put the error string in
the prompt buffer and set the error prompt, touching nothing else; on
success, replace `current_dir`/`current_dir_len`, free the entry array, and
reset `selected`/`selected_previously`. -/
def cd (st : PeekState) (outcome : ChdirOutcome) : PeekState :=
  match outcome with
  | .fail err =>
    { st with prompt_buffer := err, prompt := .PROMPT_ERR }
  | .ok cwd =>
    let st := { st with current_dir := cwd, current_dir_len := cwd.length }
    let st := free_posix_entries st
    { st with selected := 0, selected_previously := -1 }

/-- The `USER_ACT_CD_RELOAD` case of `handle_user_act` (peek.c lines
894-896): just `free_posix_entries()`; the selection scalars are untouched
(reload is not one of the move actions that record `selected_previously`). -/
def handle_reload (st : PeekState) : PeekState :=
  free_posix_entries st

/-! ### UTF-8 width scanning (`utf8_len`, peek.c lines 264-301)

`mk_wcwidth` comes from the vendored `wcwidth.h`, which is not under `src/`;
all statements below are parameterized over an arbitrary width table
`w : Nat → Int`, which only completed codepoints are ever passed to. -/

/-- The per-iteration state of the `utf8_len` loop: the accumulated width
`len` (C `int`), the partial codepoint `uni` (C `uint32_t`, so kept below
`2^32`), and `uniBytes`, the count of continuation bytes still expected
(C `int`; it goes negative on stray continuation bytes). -/
structure Utf8State where
  len : Int
  uni : Nat
  uniBytes : Int
  deriving Repr, DecidableEq

/-- One iteration of the `utf8_len` loop body (peek.c lines 270-297) on byte
`c`.  The C bit tests translate to byte ranges: `!(c & 0x80)` is `c < 0x80`;
`(c & 0xC0) == 0x80` is `0x80 ≤ c < 0xC0`; `(c & 0xE0) == 0xC0` is
`0xC0 ≤ c < 0xE0`; `(c & 0xF0) == 0xE0` is `0xE0 ≤ c < 0xF0`;
`(c & 0xF8) == 0xF0` is `0xF0 ≤ c < 0xF8`.  The masks become mod/div
arithmetic: `c & 0x3F = c % 64`, `c & 0x1F = c % 32`, `c & 0xF = c % 16`,
`c & 7 = c % 8`, and `uni << 6` on `uint32_t` is `uni * 64 % 2^32` (the OR
with the fresh low 6 bits is addition, those bits of the shift being zero). -/
def utf8_step (w : Nat → Int) (st : Utf8State) (c : Nat) : Utf8State :=
  if c < 0x80 then
    -- ASCII: the MSB is 0.
    { st with len := st.len + w c }
  else if c < 0xC0 then
    -- Continuation byte of a multibyte codepoint.
    let uni := (st.uni * 64) % 2 ^ 32 + c % 64
    let ub := st.uniBytes - 1
    if ub = 0 then { len := st.len + w uni, uni := uni, uniBytes := ub }
    else { st with uni := uni, uniBytes := ub }
  else if c < 0xE0 then
    { st with uni := c % 32, uniBytes := 1 }
  else if c < 0xF0 then
    { st with uni := c % 16, uniBytes := 2 }
  else if c < 0xF8 then
    { st with uni := c % 8, uniBytes := 3 }
  else
    -- No decodable pattern: the byte is skipped and the state untouched.
    st

/-- The `for (codepoint = str; *codepoint; ++codepoint)` loop of `utf8_len`:
process bytes until the terminating NUL (or the end of the modelled list). -/
def utf8_run (w : Nat → Int) : Utf8State → List Nat → Utf8State
  | st, [] => st
  | st, c :: rest => if c = 0 then st else utf8_run w (utf8_step w st c) rest

/-- Function `utf8_len` (peek.c lines 264-301): total printed width of a byte string,
starting from `len = 0`, `unicode = 0`, `uni_bytes = 0`. -/
def utf8_len (w : Nat → Int) (str : List Nat) : Int :=
  (utf8_run w ⟨0, 0, 0⟩ str).len

/-- Modelled from the spec: `mk_wcwidth` lives in the vendored `wcwidth.h`,
which is not under `src/`.  Spec §4.1: each completed codepoint gets a cell
width of 0, 1 or 2 from a wide-character width table, with ambiguous or
unassigned codepoints counting 0.  Printable ASCII is width 1; the wide
(width 2) ranges never matter to the claims proved here, so everything
outside printable ASCII counts 0. -/
def mk_wcwidth (c : Nat) : Int :=
  if 32 ≤ c ∧ c < 127 then 1 else 0

/-- The per-entry metric computation of `run_scan` (peek.c lines 385-396):
`entry_data[i].len = utf8_len(name)` and the indicator decided by
`get_entry_type` plus the `-F` flag (passed in here as a `Bool`). -/
def scan_entry (w : Nat → Int) (name : List Nat) (indicator : Bool) : PeekEntry :=
  { len := utf8_len w name, indicator := indicator }

/-- The row width that `vcc_loop` accumulates over columns
`col, col + 1, ..., col + fuel - 1`, without the early exit: the same
per-column terms (`longest_in_col` plus the delimiter on non-last columns)
that `valid_column_count` sums.  Reasoning helper for relating the early-exit
loop to the full sum. -/
def rest_width (entries : List PeekEntry) (cols lines : Nat) : Nat → Nat → Int
  | 0, _ => 0
  | fuel + 1, col =>
    (let l := longest_in_col entries cols lines col
     if col < cols - 1 then l + ENTRY_DELIM_LEN else l)
      + rest_width entries cols lines fuel (col + 1)

/-! ## Helper lemmas -/

/-- Folding a step that never decreases the accumulator only grows it. -/
theorem le_foldl_of_step_le {α : Type} {f : Int → α → Int}
    (hf : ∀ acc x, acc ≤ f acc x) :
    ∀ (L : List α) (acc : Int), acc ≤ L.foldl f acc := by
  intro L
  induction L with
  | nil => intro acc; simp
  | cons y L ih =>
    intro acc
    calc acc ≤ f acc y := hf acc y
      _ ≤ (y :: L).foldl f acc := by simpa using ih (f acc y)

/-- A lower bound contributed by any one element survives the whole fold. -/
theorem le_foldl_of_mem {α : Type} {f : Int → α → Int} {v : Int} {x : α}
    (hf : ∀ acc y, acc ≤ f acc y) (hx : ∀ acc, v ≤ f acc x) :
    ∀ (L : List α) (acc : Int), x ∈ L → v ≤ L.foldl f acc := by
  intro L
  induction L with
  | nil => intro acc h; cases h
  | cons y L ih =>
    intro acc hmem
    rcases List.mem_cons.mp hmem with rfl | hmem
    · calc v ≤ f acc x := hx acc
        _ ≤ L.foldl f (f acc x) := le_foldl_of_step_le hf L (f acc x)
        _ = (x :: L).foldl f acc := by simp
    · simpa using ih (f acc y) hmem

/-- An upper bound respected by every step bounds the whole fold. -/
theorem foldl_le_of_step_le {α : Type} {f : Int → α → Int} {X : Int} :
    ∀ (L : List α) (acc : Int), acc ≤ X →
      (∀ acc' y, y ∈ L → acc' ≤ X → f acc' y ≤ X) → L.foldl f acc ≤ X := by
  intro L
  induction L with
  | nil => intro acc hacc _; simpa using hacc
  | cons y L ih =>
    intro acc hacc hstep
    simp only [List.foldl_cons]
    exact ih (f acc y) (hstep acc y (by simp) hacc)
      (fun acc' z hz => hstep acc' z (by simp [hz]))

/-- The step of `longest_in_col` never decreases the accumulator. -/
theorem longest_step_le (entries : List PeekEntry) (cols col : Nat) :
    ∀ (acc : Int) (line : Nat),
      acc ≤ (match entries.get? (line * cols + col) with
             | some e => max acc (declen e)
             | none => acc) := by
  intro acc line
  cases entries.get? (line * cols + col) <;> simp

theorem longest_in_col_nonneg (entries : List PeekEntry) (cols lines col : Nat) :
    0 ≤ longest_in_col entries cols lines col :=
  le_foldl_of_step_le (longest_step_le entries cols col) (List.range lines) 0

/-- Each entry that `valid_column_count` scans in a column bounds that
column's recorded longest width from below. -/
theorem le_longest_in_col {entries : List PeekEntry} {cols lines col line : Nat}
    {e : PeekEntry} (hline : line < lines)
    (hget : entries.get? (line * cols + col) = some e) :
    declen e ≤ longest_in_col entries cols lines col := by
  refine le_foldl_of_mem (longest_step_le entries cols col)
    (fun acc => ?_) (List.range lines) 0 (List.mem_range.mpr hline)
  rw [hget]
  exact le_max_right acc (declen e)

/-- An upper bound on every entry of a column bounds the column's longest. -/
theorem longest_in_col_le {entries : List PeekEntry} {cols lines col : Nat}
    {X : Int} (hX : 0 ≤ X)
    (hb : ∀ line, line < lines → ∀ e,
      entries.get? (line * cols + col) = some e → declen e ≤ X) :
    longest_in_col entries cols lines col ≤ X := by
  refine foldl_le_of_step_le (List.range lines) 0 hX ?_
  intro acc line hmem hacc
  rcases h : entries.get? (line * cols + col) with - | e
  · simpa [h] using hacc
  · simp only [h]
    exact max_le hacc (hb line (List.mem_range.mp hmem) e h)

theorem rest_width_nonneg (entries : List PeekEntry) (cols lines : Nat) :
    ∀ (fuel col : Nat), 0 ≤ rest_width entries cols lines fuel col := by
  intro fuel
  induction fuel with
  | zero => intro col; simp [rest_width]
  | succ fuel ih =>
    intro col
    have h1 := longest_in_col_nonneg entries cols lines col
    have h2 := ih (col + 1)
    simp only [rest_width, ENTRY_DELIM_LEN]
    split <;> omega

/-- Any single column's longest width is at most the summed row width over a
column range containing it. -/
theorem longest_le_rest_width (entries : List PeekEntry) (cols lines : Nat) :
    ∀ (fuel col j : Nat), col ≤ j → j < col + fuel →
      longest_in_col entries cols lines j ≤ rest_width entries cols lines fuel col := by
  intro fuel
  induction fuel with
  | zero => intro col j h1 h2; omega
  | succ fuel ih =>
    intro col j h1 h2
    rcases Nat.eq_or_lt_of_le h1 with rfl | hlt
    · have h3 := rest_width_nonneg entries cols lines fuel (col + 1)
      simp only [rest_width, ENTRY_DELIM_LEN]
      split <;> omega
    · have h3 := ih (col + 1) j hlt (by omega)
      have h4 := longest_in_col_nonneg entries cols lines col
      simp only [rest_width, ENTRY_DELIM_LEN]
      split <;> omega

/-- The early-exit column loop of `valid_column_count` answers exactly the
comparison of the full row width against the terminal width. -/
theorem vcc_loop_eq_rest_width (W : Nat) (entries : List PeekEntry)
    (cols lines : Nat) :
    ∀ (fuel col : Nat) (width : Int), 0 < fuel ∨ width < (W : Int) →
      (vcc_loop W entries cols lines fuel col width = true ↔
        width + rest_width entries cols lines fuel col < (W : Int)) := by
  intro fuel
  induction fuel with
  | zero =>
    intro col width h
    rcases h with h | h
    · omega
    · simp [vcc_loop, rest_width, h]
  | succ fuel ih =>
    intro col width _
    simp only [vcc_loop, rest_width]
    set t : Int := (let l := longest_in_col entries cols lines col
      if col < cols - 1 then l + ENTRY_DELIM_LEN else l) with ht
    have htn : 0 ≤ t := by
      have := longest_in_col_nonneg entries cols lines col
      rw [ht]; simp only [ENTRY_DELIM_LEN]; split <;> omega
    have hrest := rest_width_nonneg entries cols lines fuel (col + 1)
    by_cases hex : width + t ≥ (W : Int)
    · rw [if_pos hex]
      constructor
      · intro h; cases h
      · intro h; omega
    · rw [if_neg hex]
      rw [ih (col + 1) (width + t) (Or.inr (by omega))]
      constructor <;> intro h <;> omega

/-- For at least one column, feasibility is exactly the full-width test. -/
theorem valid_column_count_iff (W : Nat) (entries : List PeekEntry)
    (cols : Nat) (hc : 1 ≤ cols) :
    (valid_column_count W entries cols = true ↔
      rest_width entries cols ((entries.length - 1) / cols + 1) cols 0 < (W : Int)) := by
  have := vcc_loop_eq_rest_width W entries cols ((entries.length - 1) / cols + 1)
    cols 0 0 (Or.inl (by omega))
  simpa [valid_column_count] using this

/-- Single-column feasibility reduces to the overall longest decorated entry:
with `cols = 1` there is one column, no delimiter, and every entry lands in
line `i` of column 0. -/
theorem rest_width_one (entries : List PeekEntry) :
    rest_width entries 1 ((entries.length - 1) / 1 + 1) 1 0 =
      longest_in_col entries 1 ((entries.length - 1) / 1 + 1) 0 := by
  simp [rest_width]

/-! ## Claim theorems -/

/-- C1: when columnar formatting is used, the column count chosen by the
layout solver is claimed to be the maximum `c` with `fits(c)`.  Evaluating
the embedded solver at the failing input (three entries of decorated widths
5, 1, 5 on a terminal 11 cells wide, which is in the formatted regime since
the one-line length 17 is not below 11) shows the code picks
`entry_columns = 1` even though `fits(2)` holds and `2 ≤ entry_count - 1`:
the binary search `while (lo < hi)` over `lo = 1, hi = entry_count - 1`
treats `hi` as an exclusive bound and never tests `c = entry_count - 1`,
contradicting the optimality the code's own comment ("Determine max number
of columns") and the spec describe. -/
theorem entry_columns_not_maximal :
    formatted_after_renew 11 [⟨5, false⟩, ⟨1, false⟩, ⟨5, false⟩] = true ∧
    entry_columns_of 11 [⟨5, false⟩, ⟨1, false⟩, ⟨5, false⟩] = 1 ∧
    valid_column_count 11 [⟨5, false⟩, ⟨1, false⟩, ⟨5, false⟩] 2 = true := by
  decide

/-- C2 (counterexample): the feasibility predicate `valid_column_count` is
not monotonically non-increasing in the column count.  For decorated entry
widths `[10, 1, 1, 10]` and terminal width 20, `fits(3)` holds (columns pair
entries 0 and 3, total width 16) while `fits(2)` fails (both columns are
width 10, total 22), refuting the claim at `c = 3`, `c' = 2`. -/
theorem fits_not_monotone_counterexample :
    valid_column_count 20 [⟨10, false⟩, ⟨1, false⟩, ⟨1, false⟩, ⟨10, false⟩] 3 = true ∧
    valid_column_count 20 [⟨10, false⟩, ⟨1, false⟩, ⟨1, false⟩, ⟨10, false⟩] 2 = false ∧
    1 ≤ 2 ∧ 2 ≤ 3 := by
  decide

/-- C2 (amended): monotonicity of `fits` holds only down to the single-column
layout: for every vector of decorated entry widths, every terminal width and
every `c ≥ 1`, if `fits(c)` is true then `fits(1)` is true; for intermediate
`1 < c' < c` feasibility can fail even when `fits(c)` holds. -/
theorem fits_implies_fits_one (W : Nat) (entries : List PeekEntry) (c : Nat)
    (hc : 1 ≤ c) (hfit : valid_column_count W entries c = true) :
    valid_column_count W entries 1 = true := by
  rw [valid_column_count_iff W entries c hc] at hfit
  rw [valid_column_count_iff W entries 1 le_rfl, rest_width_one]
  set linesc := (entries.length - 1) / c + 1 with hlc
  refine lt_of_le_of_lt ?_ hfit
  refine longest_in_col_le (rest_width_nonneg entries c linesc c 0) ?_
  intro line _ e hget
  -- The entry at flat index `line` sits at line `line / c`, column `line % c`
  -- of the `c`-column grid.
  have hn : line < entries.length := by
    have := List.get?_eq_some.mp hget
    simpa using this.1
  have hdiv : line / c < linesc := by
    have h1 : line / c ≤ (entries.length - 1) / c :=
      Nat.div_le_div_right (by omega)
    omega
  have hidx : line / c * c + line % c = line := by
    rw [Nat.mul_comm]
    exact Nat.div_add_mod line c
  have h2 : declen e ≤ longest_in_col entries c linesc (line % c) :=
    le_longest_in_col hdiv (by rw [hidx]; simpa using hget)
  have h3 : longest_in_col entries c linesc (line % c) ≤
      rest_width entries c linesc c 0 :=
    longest_le_rest_width entries c linesc c 0 (line % c) (Nat.zero_le _)
      (by have := Nat.mod_lt line (show 0 < c by omega); omega)
  omega

/-- Witness for `fits_implies_fits_one` at `W = 11`, widths `[5, 1, 5]`,
`c = 2`. -/
theorem fits_implies_fits_one_witness :
    (1 ≤ 2 ∧
      valid_column_count 11 [⟨5, false⟩, ⟨1, false⟩, ⟨5, false⟩] 2 = true) ∧
    valid_column_count 11 [⟨5, false⟩, ⟨1, false⟩, ⟨5, false⟩] 1 = true :=
  ⟨⟨by decide, by decide⟩,
    fits_implies_fits_one 11 [⟨5, false⟩, ⟨1, false⟩, ⟨5, false⟩] 2
      (by decide) (by decide)⟩

/-- C3 (counterexample): the claim fails at its own concrete instance and in
its choice of "undecorated" length.  For entries `"a", "bb", "ccc"` (widths
1, 2, 3, no indicators) and terminal width 10, the scan total is
`(1+2) + (2+2) + (3+2) = 12`, which is not below 10, so `renew_display`
keeps `formatted = true` — the claim says `formatted = false`.  Moreover the
code compares the decorated total: a single width-9 entry with an indicator
has undecorated total `9 + 2 = 11 < 12` yet stays formatted at width 12,
because its decorated total is 12. -/
theorem formatted_skip_counterexample :
    (formatted_after_renew 10 [⟨1, false⟩, ⟨2, false⟩, ⟨3, false⟩] = true) ∧
    (undecorated_total_length_spec [⟨9, true⟩] < 12 ∧
      formatted_after_renew 12 [⟨9, true⟩] = true) := by
  decide

/-- C3 (amended): columnar formatting is skipped (`formatted = false`, the
entries emitted on one line with the two-cell delimiter and no padding)
exactly when the decorated total length — printed width plus indicator
character plus delimiter per entry — is less than the terminal width; for
entries `"a", "bb", "ccc"` this requires terminal width at least 13, and at
width 13 the scan (with the spec-modelled width table) stays on a single
line reading `"a  bb  ccc  "`. -/
theorem formatted_iff_decorated_total :
    (∀ (W : Nat) (entries : List PeekEntry),
        formatted_after_renew W entries = false ↔
          total_length entries < (W : Int)) ∧
    (formatted_after_renew 13
        [scan_entry mk_wcwidth [97] false, scan_entry mk_wcwidth [98, 98] false,
          scan_entry mk_wcwidth [99, 99, 99] false] = false ∧
      render_one_line [([97], none), ([98, 98], none), ([99, 99, 99], none)] =
        (("a  bb  ccc  ".toList).map Char.toNat)) := by
  refine ⟨fun W entries => ?_, by decide, by decide⟩
  by_cases h : total_length entries < (W : Int) <;>
    simp [formatted_after_renew, h]

/-- C4: in formatted mode, Move Up takes `selected` to `selected - columns`
when that stays non-negative, and otherwise wraps to
`selected + columns * (lines - 1)`, stepped back by one `columns` when that
target would exceed `entry_count - 1` (skipping the ragged short row); in
the 2-column, 3-line grid of 5 entries, Move Up from index 0 lands on 4. -/
theorem move_up_wrap_spec :
    (∀ (n cols lines s : Int),
        move_up n cols lines true s =
          if 0 ≤ s - cols then s - cols
          else if s + cols * (lines - 1) > n - 1 then
            s + cols * (lines - 1) - cols
          else s + cols * (lines - 1)) ∧
    move_up 5 2 3 true 0 = 4 := by
  refine ⟨fun n cols lines s => ?_, by decide⟩
  simp only [move_up, Bool.not_true, Bool.false_eq_true, if_false]
  generalize cols * (lines - 1) = P
  split_ifs <;> omega

/-- In unformatted mode, Move Right walks straight up while no wrap occurs. -/
theorem move_right_unfmt_run (n cols : Int) :
    ∀ (j : Nat) (s : Int), 0 ≤ s → s + j ≤ n - 1 →
      (fun t => move_right n cols false t)^[j] s = s + j := by
  intro j
  induction j with
  | zero => intro s _ _; simp
  | succ j ih =>
    intro s h0 h1
    rw [Function.iterate_succ_apply]
    have hs : move_right n cols false s = s + 1 := by
      simp only [move_right, Bool.false_eq_true, if_false]
      rw [if_neg (by push_cast at h1; omega)]
    rw [hs, ih (s + 1) (by omega) (by push_cast at h1 ⊢; omega)]
    push_cast
    ring

/-- In unformatted mode, Move Right applied `entry_count` times returns to
the start. -/
theorem move_right_unfmt_closure (n cols s : Int)
    (hn : 1 ≤ n) (h0 : 0 ≤ s) (h1 : s ≤ n - 1) :
    (fun t => move_right n cols false t)^[n.toNat] s = s := by
  have hsplit : n.toNat = s.toNat + (1 + (n - 1 - s).toNat) := by omega
  rw [hsplit, Function.iterate_add_apply, Function.iterate_add_apply,
    Function.iterate_one]
  have hrun1 : (fun t => move_right n cols false t)^[(n - 1 - s).toNat] s
      = n - 1 := by
    rw [move_right_unfmt_run n cols _ s h0 (by omega)]
    omega
  rw [hrun1]
  have hwrap : move_right n cols false (n - 1) = 0 := by
    simp only [move_right, Bool.false_eq_true, if_false]
    rw [if_pos (by omega)]
  rw [hwrap, move_right_unfmt_run n cols s.toNat 0 le_rfl (by omega)]
  omega

/-- In unformatted mode, Move Left walks straight down while above zero. -/
theorem move_left_unfmt_run (n cols : Int) :
    ∀ (j : Nat) (s : Int), (j : Int) ≤ s →
      (fun t => move_left n cols false t)^[j] s = s - j := by
  intro j
  induction j with
  | zero => intro s _; simp
  | succ j ih =>
    intro s hj
    rw [Function.iterate_succ_apply]
    have hs : move_left n cols false s = s - 1 := by
      simp only [move_left, Bool.false_eq_true, if_false]
      rw [if_neg (by push_cast at hj; omega)]
    rw [hs, ih (s - 1) (by push_cast at hj ⊢; omega)]
    push_cast
    ring

/-- In unformatted mode, Move Left applied `entry_count` times returns to
the start. -/
theorem move_left_unfmt_closure (n cols s : Int)
    (hn : 1 ≤ n) (h0 : 0 ≤ s) (h1 : s ≤ n - 1) :
    (fun t => move_left n cols false t)^[n.toNat] s = s := by
  have hsplit : n.toNat = (n - 1 - s).toNat + (1 + s.toNat) := by omega
  rw [hsplit, Function.iterate_add_apply, Function.iterate_add_apply,
    Function.iterate_one]
  have hrun1 : (fun t => move_left n cols false t)^[s.toNat] s = 0 := by
    rw [move_left_unfmt_run n cols s.toNat s (by omega)]
    omega
  rw [hrun1]
  have hwrap : move_left n cols false 0 = n - 1 := by
    simp only [move_left, Bool.false_eq_true, if_false]
    rw [if_pos (by omega)]
  rw [hwrap, move_left_unfmt_run n cols (n - 1 - s).toNat (n - 1) (by omega)]
  omega

/-- In formatted mode, Move Down undoes Move Up on any in-bounds selection of
a consistent grid (`cols * (lines - 1) ≤ entry_count - 1 ≤ cols * lines - 1`,
which is how `renew_display` derives `entry_lines` from `entry_columns`). -/
theorem move_down_move_up (n cols lines s : Int) (hc : 1 ≤ cols) (h0 : 0 ≤ s)
    (h1 : s ≤ n - 1) (hP : cols * (lines - 1) ≤ n - 1) (hN : n ≤ cols * lines) :
    move_down n cols lines true (move_up n cols lines true s) = s := by
  simp only [move_up, move_down, Bool.not_true, Bool.false_eq_true, if_false]
  set P := cols * (lines - 1) with hPdef
  have hPN : cols * lines = P + cols := by rw [hPdef]; ring
  rw [hPN] at hN
  split_ifs <;> omega

/-- C5 (counterexample): in a formatted 2-column, 3-line grid of 5 entries,
Move Right cycles inside the selection's row, so applying it
`entry_count = 5` times from index 0 gives index 1, not the start. -/
theorem move_right_closure_counterexample :
    (fun t => move_right 5 2 true t)^[5] 0 = 1 ∧
    ¬ (fun t => move_right 5 2 true t)^[5] 0 = 0 := by
  decide

/-- C5 (amended): the closure holds in unformatted (single-line) mode —
Move Right applied `entry_count` times returns to the start, likewise Move
Left, and Move Up/Move Down are no-ops there; in formatted mode
Right/Left cycle within a single row instead, and only the up/down part of
the claim survives: Move Up composed with its inverse Move Down returns to
the start (hence so does iterating that composition `lines` times), for any
in-bounds selection of a consistent grid. -/
theorem nav_closure_amended :
    (∀ (n cols s : Int), 1 ≤ n → 0 ≤ s → s ≤ n - 1 →
        (fun t => move_right n cols false t)^[n.toNat] s = s) ∧
    (∀ (n cols s : Int), 1 ≤ n → 0 ≤ s → s ≤ n - 1 →
        (fun t => move_left n cols false t)^[n.toNat] s = s) ∧
    (∀ (n cols lines s : Int),
        move_up n cols lines false s = s ∧ move_down n cols lines false s = s) ∧
    (∀ (n cols lines s : Int) (k : Nat), 1 ≤ cols → 0 ≤ s → s ≤ n - 1 →
        cols * (lines - 1) ≤ n - 1 → n ≤ cols * lines →
        (fun t => move_down n cols lines true (move_up n cols lines true t))^[k] s
          = s) := by
  refine ⟨move_right_unfmt_closure, move_left_unfmt_closure,
    fun n cols lines s => ⟨by simp [move_up], by simp [move_down]⟩,
    fun n cols lines s k hc h0 h1 hP hN => ?_⟩
  refine Function.iterate_fixed ?_ k
  exact move_down_move_up n cols lines s hc h0 h1 hP hN

/-- Witness for `nav_closure_amended`: 7 entries on one line for Right/Left
and Up/Down no-ops; the 5-entry, 2-column, 3-line grid for the up/down
composition iterated `lines = 3` times. -/
theorem nav_closure_amended_witness :
    ((1 : Int) ≤ 7 ∧ (0 : Int) ≤ 2 ∧ (2 : Int) ≤ 7 - 1 ∧
      (fun t => move_right 7 3 false t)^[(7 : Int).toNat] 2 = 2) ∧
    ((fun t => move_left 7 3 false t)^[(7 : Int).toNat] 2 = 2) ∧
    (move_up 7 3 4 false 2 = 2 ∧ move_down 7 3 4 false 2 = 2) ∧
    ((1 : Int) ≤ 2 ∧ (2 : Int) * (3 - 1) ≤ 5 - 1 ∧ (5 : Int) ≤ 2 * 3 ∧
      (fun t => move_down 5 2 3 true (move_up 5 2 3 true t))^[3] 1 = 1) :=
  ⟨⟨by decide, by decide, by decide,
      nav_closure_amended.1 7 3 2 (by decide) (by decide) (by decide)⟩,
    nav_closure_amended.2.1 7 3 2 (by decide) (by decide) (by decide),
    nav_closure_amended.2.2.1 7 3 4 2,
    by decide, by decide, by decide,
    nav_closure_amended.2.2.2 5 2 3 1 3 (by decide) (by decide) (by decide)
      (by decide) (by decide)⟩

/-- C truncating division brackets a non-negative dividend within one page:
`a/b*b ≤ a < a/b*b + b`. -/
theorem tdiv_mul_bounds (a b : Int) (h0 : 0 ≤ a) (hb : 1 ≤ b) :
    Int.tdiv a b * b ≤ a ∧ a < Int.tdiv a b * b + b := by
  obtain ⟨m, rfl⟩ := Int.eq_ofNat_of_zero_le h0
  obtain ⟨k, rfl⟩ := Int.eq_ofNat_of_zero_le (le_trans zero_le_one hb)
  have htd : Int.tdiv (m : Int) (k : Int) = ((m / k : Nat) : Int) := rfl
  rw [htd]
  have hdm : m / k * k + m % k = m := by
    rw [Nat.mul_comm]
    exact Nat.div_add_mod m k
  have hdmZ : ((m / k : Nat) : Int) * (k : Int) + ((m % k : Nat) : Int) = (m : Int) := by
    exact_mod_cast hdm
  have hmltZ : ((m % k : Nat) : Int) < (k : Int) := by
    exact_mod_cast Nat.mod_lt m (by omega)
  constructor <;> omega

/-- C6: after any navigation step followed by a display refresh, the view
window encloses the selection: `validate_selection_index` clamps `selected`
and marks the frame dirty whenever the clamped selection left
`[i_offset, i_limit]`, and the full-repaint path recomputes the window as
`i_offset = selected / page_length * page_length`,
`i_limit = i_offset + page_length - 1`, which re-encloses the selection
whenever entries exist and `page_length > 0`. -/
theorem view_window_invariant (oneshot fmt : Bool)
    (entry_lines ws_row row_offset cols : Int) (resized : Bool) (st : DispState)
    (hn : 1 ≤ st.entry_count) (hp : 1 ≤ (ws_row - row_offset) * cols) :
    (refresh_display oneshot fmt entry_lines ws_row row_offset cols resized st).i_offset
        ≤ (refresh_display oneshot fmt entry_lines ws_row row_offset cols resized st).selected ∧
    (refresh_display oneshot fmt entry_lines ws_row row_offset cols resized st).selected
        ≤ (refresh_display oneshot fmt entry_lines ws_row row_offset cols resized st).i_limit := by
  simp only [refresh_display]
  set st1 := validate_selection_index st with hst1
  have hsel : 0 ≤ st1.selected ∧ st1.selected ≤ st.entry_count - 1 := by
    rw [hst1]
    simp only [validate_selection_index]
    split_ifs <;> omega
  have hec : st1.entry_count = st.entry_count := by
    rw [hst1]
    simp [validate_selection_index]
  by_cases hdirty : (st1.display_is_dirty || resized) = true
  · rw [if_pos hdirty]
    simp only [renew_window]
    by_cases hpage : (!oneshot && fmt && decide (entry_lines > ws_row)) = true
    · rw [if_pos hpage]
      simp only
      have := tdiv_mul_bounds st1.selected ((ws_row - row_offset) * cols)
        hsel.1 hp
      omega
    · rw [if_neg hpage]
      simp only
      omega
  · rw [if_neg hdirty]
    have hin : ¬ st1.selected < st1.i_offset ∧ ¬ st1.selected > st1.i_limit := by
      have hd : st1.display_is_dirty = false := by
        rcases Bool.or_eq_false_iff.mp (Bool.not_eq_true _ |>.mp hdirty) with ⟨h1, -⟩
        exact h1
      rw [hst1] at hd ⊢
      simp only [validate_selection_index] at hd ⊢
      simp only [Bool.or_eq_false_iff, decide_eq_false_iff_not] at hd
      exact ⟨hd.1.2, hd.2⟩
    omega

/-- Witness for `view_window_invariant`: 30 entries, selection 17, a stale
window `[0, 7]`, 2 columns, page length 8; the refresh recomputes the
window to `[16, 23]`, which encloses 17. -/
theorem view_window_invariant_witness :
    ((1 : Int) ≤ (30 : Int) ∧ (1 : Int) ≤ ((5 : Int) - 1) * 2) ∧
    ((refresh_display false true 10 5 1 2 false
        ⟨30, 17, -1, 0, 7, true⟩).i_offset
      ≤ (refresh_display false true 10 5 1 2 false
        ⟨30, 17, -1, 0, 7, true⟩).selected ∧
     (refresh_display false true 10 5 1 2 false
        ⟨30, 17, -1, 0, 7, true⟩).selected
      ≤ (refresh_display false true 10 5 1 2 false
        ⟨30, 17, -1, 0, 7, true⟩).i_limit) :=
  ⟨⟨by decide, by decide⟩,
    view_window_invariant false true 10 5 1 2 false ⟨30, 17, -1, 0, 7, true⟩
      (by decide) (by decide)⟩

/-- C7 (counterexample): a manual reload (`USER_ACT_CD_RELOAD`) does not
reset the selection: from a state with `selected = 3` it frees the entry
array but leaves `selected = 3`, not 0, and keeps `selected_previously`. -/
theorem reload_keeps_selection :
    (handle_reload
        ⟨"/tmp", 4, some ["a", "b", "c", "d"], 3, 1, false, .PROMPT_NONE, ""⟩).selected
      = 3 ∧
    ¬ (handle_reload
        ⟨"/tmp", 4, some ["a", "b", "c", "d"], 3, 1, false, .PROMPT_NONE, ""⟩).selected
      = 0 ∧
    (handle_reload
        ⟨"/tmp", 4, some ["a", "b", "c", "d"], 3, 1, false, .PROMPT_NONE, ""⟩).selected_previously
      = 1 := by
  refine ⟨rfl, by decide, rfl⟩

/-- C7 (amended): a successful directory change resets `selected` to 0 and
clears `selected_previously` to the `SELECTED_NOT` sentinel (-1); a manual
refresh/reload only invalidates the entry array (forcing a rescan on the
next display refresh) and preserves both `selected` and
`selected_previously`. -/
theorem selection_reset_amended :
    (∀ (st : PeekState) (cwd : String),
        (cd st (.ok cwd)).selected = 0 ∧
        (cd st (.ok cwd)).selected_previously = -1) ∧
    (∀ st : PeekState,
        (handle_reload st).selected = st.selected ∧
        (handle_reload st).selected_previously = st.selected_previously ∧
        (handle_reload st).entries = none) := by
  constructor
  · intro st cwd
    unfold cd free_posix_entries
    cases h : st.entries <;> simp [h]
  · intro st
    unfold handle_reload free_posix_entries
    cases h : st.entries <;> simp [h]

/-- C8: when the `chdir`-equivalent fails, `cd` surfaces the system error
string in the status prompt (`prompt = PROMPT_ERR`, `prompt_buffer` holds
`strerror(errno)`) and leaves everything else untouched: `current_dir`,
`current_dir_len`, the entry array, the selection, and the dirty flag are
exactly as before the failed call. -/
theorem cd_failure_preserves_state (st : PeekState) (err : String) :
    (cd st (.fail err)).current_dir = st.current_dir ∧
    (cd st (.fail err)).current_dir_len = st.current_dir_len ∧
    (cd st (.fail err)).entries = st.entries ∧
    (cd st (.fail err)).selected = st.selected ∧
    (cd st (.fail err)).selected_previously = st.selected_previously ∧
    (cd st (.fail err)).display_is_dirty = st.display_is_dirty ∧
    (cd st (.fail err)).prompt = PromptT.PROMPT_ERR ∧
    (cd st (.fail err)).prompt_buffer = err := by
  unfold cd
  simp

/-- The byte scan stops at the first NUL: everything after it is dead. -/
theorem utf8_run_stops_at_nul (w : Nat → Int) :
    ∀ (xs : List Nat) (st : Utf8State) (ys : List Nat),
      utf8_run w st (xs ++ 0 :: ys) = utf8_run w st xs := by
  intro xs
  induction xs with
  | nil => intro st ys; simp [utf8_run]
  | cons x xs ih =>
    intro st ys
    simp only [List.cons_append, utf8_run]
    by_cases hx : x = 0
    · rw [if_pos hx, if_pos hx]
    · rw [if_neg hx, if_neg hx]
      exact ih _ _

/-- A byte with no decodable pattern (`0xF8` and above) leaves the scanner
state completely unchanged. -/
theorem utf8_step_undecodable (w : Nat → Int) (st : Utf8State) (b : Nat)
    (hb : 0xF8 ≤ b) : utf8_step w st b = st := by
  unfold utf8_step
  rw [if_neg (by omega), if_neg (by omega), if_neg (by omega),
    if_neg (by omega), if_neg (by omega)]

/-- Dropping an undecodable byte anywhere in the string changes nothing. -/
theorem utf8_run_skips_undecodable (w : Nat → Int) (b : Nat) (hb : 0xF8 ≤ b) :
    ∀ (xs : List Nat) (st : Utf8State) (ys : List Nat),
      utf8_run w st (xs ++ b :: ys) = utf8_run w st (xs ++ ys) := by
  intro xs
  induction xs with
  | nil =>
    intro st ys
    simp only [List.nil_append, utf8_run]
    rw [if_neg (by omega), utf8_step_undecodable w st b hb]
  | cons x xs ih =>
    intro st ys
    simp only [List.cons_append, utf8_run]
    by_cases hx : x = 0
    · rw [if_pos hx, if_pos hx]
    · rw [if_neg hx, if_neg hx]
      exact ih _ _

/-- C9: the display-width scan `utf8_len` is total and memory-safe on every
NUL-terminated byte string, for every width table `w`:
(1) it never reads past the terminating NUL — bytes after the first 0 cannot
change the result; (2) an undecodable lead byte (`0xF8..0xFF` matches none
of the decode patterns) contributes zero width and perturbs nothing, wherever
it sits; (3) a continuation byte arriving with no pending codepoint
(`uni_bytes ≤ 0`) contributes zero width; (4) the scanner resynchronizes at
the next valid lead byte: the step on a lead (`0xC0..0xF7`) depends only on
the accumulated width, not on any stale partial-codepoint state. -/
theorem utf8_len_safety :
    (∀ (w : Nat → Int) (xs ys : List Nat),
        utf8_len w (xs ++ 0 :: ys) = utf8_len w xs) ∧
    (∀ (w : Nat → Int) (xs ys : List Nat) (b : Nat), 0xF8 ≤ b →
        utf8_len w (xs ++ b :: ys) = utf8_len w (xs ++ ys)) ∧
    (∀ (w : Nat → Int) (st : Utf8State) (c : Nat),
        st.uniBytes ≤ 0 → 0x80 ≤ c → c < 0xC0 →
        (utf8_step w st c).len = st.len) ∧
    (∀ (w : Nat → Int) (s1 s2 : Utf8State) (c : Nat),
        s1.len = s2.len → 0xC0 ≤ c → c < 0xF8 →
        utf8_step w s1 c = utf8_step w s2 c) := by
  refine ⟨fun w xs ys => ?_, fun w xs ys b hb => ?_,
    fun w st c hpend h1 h2 => ?_, fun w s1 s2 c hlen h1 h2 => ?_⟩
  · unfold utf8_len
    rw [utf8_run_stops_at_nul]
  · unfold utf8_len
    rw [utf8_run_skips_undecodable w b hb]
  · unfold utf8_step
    rw [if_neg (by omega), if_pos (by omega)]
    simp only
    rw [if_neg (by omega)]
  · cases s1 with
    | mk l1 u1 b1 =>
      cases s2 with
      | mk l2 u2 b2 =>
        simp only at hlen
        subst hlen
        unfold utf8_step
        split_ifs <;> first | rfl | omega

/-- Witness for `utf8_len_safety` with the constant width table and concrete
bytes: a NUL mid-string, an `0xF9` filler, a stray continuation byte `0x85`
on an idle scanner, and a 2-byte lead `0xC5` hitting two different stale
states with equal accumulated width. -/
theorem utf8_len_safety_witness :
    (utf8_len (fun _ => 1) ([97] ++ 0 :: [98]) = utf8_len (fun _ => 1) [97]) ∧
    (utf8_len (fun _ => 1) ([97] ++ 249 :: [98])
      = utf8_len (fun _ => 1) ([97] ++ [98])) ∧
    ((utf8_step (fun _ => 1) ⟨5, 0, 0⟩ 133).len = (⟨5, 0, 0⟩ : Utf8State).len) ∧
    (utf8_step (fun _ => 1) ⟨5, 9, -2⟩ 197 = utf8_step (fun _ => 1) ⟨5, 3, 1⟩ 197) :=
  ⟨utf8_len_safety.1 (fun _ => 1) [97] [98],
    utf8_len_safety.2.1 (fun _ => 1) [97] [98] 249 (by decide),
    utf8_len_safety.2.2.1 (fun _ => 1) ⟨5, 0, 0⟩ 133 (by decide) (by decide)
      (by decide),
    utf8_len_safety.2.2.2 (fun _ => 1) ⟨5, 9, -2⟩ ⟨5, 3, 1⟩ 197 rfl (by decide)
      (by decide)⟩

/-- C10: in formatted mode, Move Up and Move Down always change `selected`
by a multiple of `entry_columns` — every branch adds or subtracts
`entry_columns`, `entry_columns * (entry_lines - 1)`, or that offset less one
`entry_columns` — so the selection's column `selected % entry_columns` is
invariant under both transitions, wraparound branches included. -/
theorem up_down_column_invariant (n cols lines s : Int)
    (hc : 1 ≤ cols) (h0 : 0 ≤ s) (h1 : s ≤ n - 1) :
    move_up n cols lines true s % cols = s % cols ∧
    move_down n cols lines true s % cols = s % cols := by
  have key : ∀ (k r : Int), r = s + cols * k → r % cols = s % cols := by
    intro k r hr
    rw [hr]
    apply Int.add_mul_emod_self_left
  constructor
  · simp only [move_up, Bool.not_true, Bool.false_eq_true, if_false]
    split_ifs
    · exact key (lines - 1 - 1) _ (by ring)
    · exact key (lines - 1) _ (by ring)
    · exact key (-1) _ (by ring)
  · simp only [move_down, Bool.not_true, Bool.false_eq_true, if_false]
    split_ifs
    · exact key (-(lines - 1) + 1) _ (by ring)
    · exact key (-(lines - 1)) _ (by ring)
    · exact key 1 _ (by ring)

/-- Witness for `up_down_column_invariant` in the 5-entry, 2-column, 3-line
grid at `selected = 1` (column 1). -/
theorem up_down_column_invariant_witness :
    ((1 : Int) ≤ 2 ∧ (0 : Int) ≤ 1 ∧ (1 : Int) ≤ 5 - 1) ∧
    (move_up 5 2 3 true 1 % 2 = 1 % 2 ∧ move_down 5 2 3 true 1 % 2 = 1 % 2) :=
  ⟨⟨by decide, by decide, by decide⟩,
    up_down_column_invariant 5 2 3 1 (by decide) (by decide) (by decide)⟩

end Peek
